import Mathlib

set_option maxRecDepth 8000

/-!
Shallow embedding of the log-query tool of the DevFest Pwani 2025 assistant.

The embedding models JavaScript strings as `List Char`.  Case-insensitive
matching of the concrete ASCII patterns used by the code (`limit`, `error`,
`payment`, ...) is modelled by `lowEq`/`lowStarts`/`lowInc`, which agree with
`toLowerCase()`-then-compare for all characters whose lowercase form is
ASCII (only ASCII characters can produce the ASCII pattern texts involved).
The regex character classes `\s` and `\d` are modelled over their ASCII
fragment.  Timestamps are modelled as epoch milliseconds (`Int`); the
round-trip `new Date(iso).getTime()` used by the code is the identity on
these values, and ISO strings are rendered as their millisecond value in the
serialized JSON model.
-/

-- JS regex class \s (ASCII fragment): space, \t, \n, \r, \v, \f.
def jsSpace (c : Char) : Bool :=
  decide (c.toNat = 32 ∨ c.toNat = 9 ∨ c.toNat = 10 ∨ c.toNat = 13 ∨ c.toNat = 11 ∨ c.toNat = 12)

-- JS regex class \d.
def jsDigit (c : Char) : Bool := decide (48 ≤ c.toNat ∧ c.toNat ≤ 57)

-- `lowEq c d`: the input character `c` matches the (lowercase) pattern
-- character `d` case-insensitively, as `toLowerCase()` / regex flag `i` do.
def lowEq (c d : Char) : Bool :=
  decide (c.toNat = d.toNat ∨ (65 ≤ c.toNat ∧ c.toNat ≤ 90 ∧ c.toNat + 32 = d.toNat))

-- Case-insensitive `startsWith` against a lowercase pattern.
def lowStarts : List Char → List Char → Bool
  | [], _ => true
  | _ :: _, [] => false
  | p :: ps, c :: cs => lowEq c p && lowStarts ps cs

-- Case-insensitive `includes` against a lowercase pattern: this models
-- `query.toLowerCase().includes(pat)` for an ASCII lowercase `pat`.
def lowInc (pat : List Char) : List Char → Bool
  | [] => lowStarts pat []
  | c :: cs => lowStarts pat (c :: cs) || lowInc pat cs

-- Case-sensitive `startsWith` / `includes` (used for `String.includes` on
-- strings that are not lowercased first).
def plainStarts : List Char → List Char → Bool
  | [], _ => true
  | _ :: _, [] => false
  | p :: ps, c :: cs => p == c && plainStarts ps cs

def plainInc (pat : List Char) : List Char → Bool
  | [] => plainStarts pat []
  | c :: cs => plainStarts pat (c :: cs) || plainInc pat cs

def limitP : List Char := ['l', 'i', 'm', 'i', 't']

-- The literal " LIMIT 50" appended by the safety check.
def appendTxt : List Char := [' ', 'L', 'I', 'M', 'I', 'T', ' ', '5', '0']

-- The literal "LIMIT 50" used as replacement text.
def replTxt : List Char := ['L', 'I', 'M', 'I', 'T', ' ', '5', '0']

-- `parseInt(ds, 10)` on a nonempty all-digit string.
def digitsVal (l : List Char) : Nat := l.foldl (fun a c => a * 10 + (c.toNat - 48)) 0

-- One attempt of the regex `/limit\s+(\d+)/i` anchored at the head of the
-- list: on success returns (length of the matched text, numeric value of the
-- captured digit group).  `\s+` and `\d+` are greedy; since the two classes
-- are disjoint no backtracking can succeed where the greedy run fails.
def matchAt : List Char → Option (Nat × Nat)
  | c1 :: c2 :: c3 :: c4 :: c5 :: rest =>
    if lowEq c1 'l' && lowEq c2 'i' && lowEq c3 'm' && lowEq c4 'i' && lowEq c5 't' then
      let ws := rest.takeWhile jsSpace
      let ds := (rest.dropWhile jsSpace).takeWhile jsDigit
      if ws.length == 0 || ds.length == 0 then none
      else some (5 + ws.length + ds.length, digitsVal ds)
    else none
  | _ => none

-- `query.match(/limit\s+(\d+)/i)`: scan left to right for the first position
-- where the pattern matches.
def findLimit : List Char → Option (Nat × Nat)
  | [] => none
  | c :: cs =>
    match matchAt (c :: cs) with
    | some r => some r
    | none => findLimit cs

def findLimitVal (l : List Char) : Option Nat := (findLimit l).map (fun r => r.2)

-- `query.replace(/limit\s+\d+/i, 'LIMIT 50')`: replace the first match.
def replaceFirst : List Char → List Char
  | [] => []
  | c :: cs =>
    match matchAt (c :: cs) with
    | some (len, _) => replTxt ++ (c :: cs).drop len
    | none => c :: replaceFirst cs

-- `query.trim()` (ASCII-whitespace fragment).
def jsTrim (l : List Char) : List Char :=
  ((l.dropWhile jsSpace).reverse.dropWhile jsSpace).reverse

-- `if (query.endsWith(';')) query = query.slice(0, -1)`.
def stripSemi (l : List Char) : List Char :=
  if l.getLast? == some ';' then l.dropLast else l

-- Safety check 1 of createQueryLogsTool: if the lowercased query does not
-- contain "limit", trim it, strip one trailing ';' and append " LIMIT 50".
def ensureLimit (q : List Char) : List Char :=
  if lowInc limitP q then q else stripSemi (jsTrim q) ++ appendTxt

-- Safety check 2: if the first `/limit\s+(\d+)/i` match has value > 100,
-- replace the first `/limit\s+\d+/i` match with "LIMIT 50".
def capLimit (q : List Char) : List Char :=
  match findLimit q with
  | some (_, n) => if 100 < n then replaceFirst q else q
  | none => q

-- The Query Sanitizer: both safety checks, in source order.
def sanitize (q : List Char) : List Char := capLimit (ensureLimit q)

-- Number of (case-insensitive) occurrences of "limit" as a substring.
def countLimitOcc : List Char → Nat
  | [] => 0
  | c :: cs => (if lowStarts limitP (c :: cs) then 1 else 0) + countLimitOcc cs

-- ---------------------------------------------------------------------------
-- The synthetic (mock) backend.
-- ---------------------------------------------------------------------------

structure MockLog where
  timestamp : Int
  severity : String
  service : String
  log_message : String
  error_details : Option String
  trace_id : String
  http_status : Option Int

def minuteMs : Int := 60000

-- The fixed corpus, built once at module load time `t0`
-- (`new Date(Date.now() - k * 60000).toISOString()`).
def mockLogs (t0 : Int) : List MockLog :=
  [⟨t0 - 5 * minuteMs, "ERROR", "payment-service", "Payment gateway timeout after 30s",
      some "Connection timeout to payment-gateway.example.com", "trace-abc123", some 504⟩,
   ⟨t0 - 10 * minuteMs, "ERROR", "checkout-service", "Failed to process checkout request",
      some "Database connection pool exhausted", "trace-def456", some 500⟩,
   ⟨t0 - 15 * minuteMs, "WARNING", "auth-service", "High latency detected on authentication endpoint",
      some "Response time: 2500ms (threshold: 1000ms)", "trace-ghi789", some 200⟩,
   ⟨t0 - 20 * minuteMs, "ERROR", "payment-service", "Payment declined by processor",
      some "Insufficient funds", "trace-jkl012", some 402⟩,
   ⟨t0 - 25 * minuteMs, "ERROR", "checkout-service", "Checkout validation failed",
      some "Invalid shipping address format", "trace-mno345", some 400⟩,
   ⟨t0 - 30 * minuteMs, "ERROR", "api-gateway", "Rate limit exceeded",
      some "Client exceeded 100 requests per minute", "trace-pqr678", some 429⟩,
   ⟨t0 - 35 * minuteMs, "WARNING", "database-proxy", "Slow query detected",
      some "Query execution time: 5.2s", "trace-stu901", none⟩,
   ⟨t0 - 40 * minuteMs, "ERROR", "payment-service", "Payment gateway connection refused",
      some "ECONNREFUSED 10.0.1.5:8443", "trace-vwx234", some 503⟩,
   ⟨t0 - 45 * minuteMs, "INFO", "checkout-service", "Checkout completed successfully",
      none, "trace-yza567", some 200⟩,
   ⟨t0 - 50 * minuteMs, "ERROR", "auth-service", "JWT token validation failed",
      some "Token expired at 2025-11-28T10:30:00Z", "trace-bcd890", some 401⟩]

def quoteChar : Char := '\''

-- The pattern "severity = 'error'" (built from pieces to keep the apostrophe
-- a character literal).
def sevErrorPat : List Char := "severity = ".data ++ [quoteChar] ++ "error".data ++ [quoteChar]

def sevWarningPat : List Char := "severity = ".data ++ [quoteChar] ++ "warning".data ++ [quoteChar]

-- `filteredLogs.sort((a, b) => tb - ta)`: descending by timestamp.
def insertByTsDesc (r : MockLog) : List MockLog → List MockLog
  | [] => [r]
  | x :: xs => if r.timestamp ≤ x.timestamp then x :: insertByTsDesc r xs else r :: x :: xs

def sortByTsDesc (l : List MockLog) : List MockLog := l.foldr insertByTsDesc []

-- Transcription of the filter statements of createQueryMockLogsTool's handler,
-- in source order: severity, then service, then recency, then slice(0, limit).
def mockSelect (t0 now : Int) (q : List Char) : List MockLog :=
  let l0 := mockLogs t0
  let l1 :=
    if lowInc sevErrorPat q || lowInc "error".data q then
      l0.filter (fun r => r.severity == "ERROR")
    else if lowInc sevWarningPat q || lowInc "warning".data q then
      l0.filter (fun r => r.severity == "WARNING")
    else l0
  let l2 :=
    if lowInc "payment".data q then l1.filter (fun r => plainInc "payment".data r.service.data)
    else if lowInc "checkout".data q then l1.filter (fun r => plainInc "checkout".data r.service.data)
    else if lowInc "auth".data q then l1.filter (fun r => plainInc "auth".data r.service.data)
    else l1
  let l3 :=
    if lowInc "30 minute".data q then l2.filter (fun r => decide (now - 30 * minuteMs < r.timestamp))
    else if lowInc "1 hour".data q then l2.filter (fun r => decide (now - 60 * minuteMs < r.timestamp))
    else l2
  let lim :=
    match findLimit q with
    | some (_, n) => n
    | none => 50
  l3.take lim

-- The whole mock query evaluation: filters and truncation, then the final
-- descending sort (the source sorts after slicing).
def mockQuery (t0 now : Int) (q : List Char) : List MockLog :=
  sortByTsDesc (mockSelect t0 now q)

-- ---------------------------------------------------------------------------
-- Spec-side formulations of the individual mock filters (for the pipeline
-- decomposition claim).
-- ---------------------------------------------------------------------------

def signalsErrorSeverity (q : List Char) : Bool :=
  lowInc sevErrorPat q || lowInc "error".data q

def signalsWarningSeverity (q : List Char) : Bool :=
  lowInc sevWarningPat q || lowInc "warning".data q

def severityFilter (q : List Char) (l : List MockLog) : List MockLog :=
  if signalsErrorSeverity q then l.filter (fun r => r.severity == "ERROR")
  else if signalsWarningSeverity q then l.filter (fun r => r.severity == "WARNING")
  else l

-- The fixed ordered list of known service-name substrings.
def serviceNames : List String := ["payment", "checkout", "auth"]

-- First match wins: the first name of the list occurring in the query text.
def firstServiceMatch (q : List Char) : Option String :=
  serviceNames.find? (fun s => lowInc s.data q)

def originFilter (q : List Char) (l : List MockLog) : List MockLog :=
  match firstServiceMatch q with
  | some s => l.filter (fun r => plainInc s.data r.service.data)
  | none => l

def recencyFilter (now : Int) (q : List Char) (l : List MockLog) : List MockLog :=
  if lowInc "30 minute".data q then l.filter (fun r => decide (now - 30 * minuteMs < r.timestamp))
  else if lowInc "1 hour".data q then l.filter (fun r => decide (now - 60 * minuteMs < r.timestamp))
  else l

-- Row cap: extracted numeric limit, default 50.
def rowCap (q : List Char) : Nat :=
  match findLimit q with
  | some (_, n) => n
  | none => 50

-- ---------------------------------------------------------------------------
-- JSON model and the two tool handlers.
-- ---------------------------------------------------------------------------

inductive Json where
  | null : Json
  | bool (b : Bool) : Json
  | num (n : Int) : Json
  | str (s : String) : Json
  | arr (elems : List Json) : Json
  | obj (fields : List (String × Json)) : Json

-- A tool invocation returns a string; `json j` marks a string produced by
-- `JSON.stringify` of the value `j` (hence a single coherent JSON document),
-- `raw s` marks a plain (non-JSON) template string.
inductive ToolOutput where
  | json (j : Json) : ToolOutput
  | raw (s : String) : ToolOutput

def optStrJson : Option String → Json
  | some s => .str s
  | none => .null

def optIntJson : Option Int → Json
  | some n => .num n
  | none => .null

def mockLogJson (r : MockLog) : Json :=
  .obj [("timestamp", .num r.timestamp), ("severity", .str r.severity),
        ("service", .str r.service), ("log_message", .str r.log_message),
        ("error_details", optStrJson r.error_details),
        ("trace_id", .str r.trace_id), ("http_status", optIntJson r.http_status)]

-- The mock tool handler.  The try-block body is a total pure function of the
-- query, so the catch clause can only be reached by a runtime exception of
-- the JavaScript engine; `thrown = some m` models such an exception with
-- message `m`, and pure execution corresponds to `thrown = none`.
def mockToolHandler (t0 now : Int) (q : List Char) (thrown : Option String) : ToolOutput :=
  match thrown with
  | some m => .raw ("Error simulating log query: " ++ m)
  | none => .json (.arr ((mockQuery t0 now q).map mockLogJson))

-- A row returned by the BigQuery job, with its timestamp field explicit.
structure LiveRow where
  timestamp : Int
  extra : List (String × Json)

def liveRowJson (r : LiveRow) : Json :=
  .obj (("timestamp", Json.num r.timestamp) :: r.extra)

def noRowsMsg : String := "No logs found matching the query criteria."
def mtErrStr : String := "Log Analytics table not found. Please ensure Log Analytics is enabled and has data."
def mtHintStr : String := "Go to Cloud Console, Logging, Log Storage: upgrade the _Default bucket to Log Analytics"
def pdErrStr : String := "Permission denied. The service account needs BigQuery permissions."
def pdHintStr : String := "Grant roles/bigquery.jobUser and roles/logging.viewer to the service account"
def genErrStr : String := "Error querying logs"
def ntfPat : List Char := "Not found: Table".data
def permPat : List Char := "permission".data

-- The live tool handler.  `exec` models running the BigQuery job on the
-- sanitized query: `.ok rows` is a completed job, `.error msg` a thrown
-- failure with message `msg` (caught by the handler's catch clause).
def liveToolHandler (q : List Char) (exec : List Char → Except String (List LiveRow)) : ToolOutput :=
  match exec (sanitize q) with
  | .ok rows =>
    if rows.length = 0 then
      .json (.obj [("message", .str noRowsMsg), ("rowCount", .num 0), ("data", .arr [])])
    else
      .json (.obj [("rowCount", .num (rows.length : Int)), ("data", .arr (rows.map liveRowJson))])
  | .error msg =>
    if plainInc ntfPat msg.data then
      .json (.obj [("error", .str mtErrStr), ("hint", .str mtHintStr), ("details", .str msg)])
    else if plainInc permPat msg.data then
      .json (.obj [("error", .str pdErrStr), ("hint", .str pdHintStr), ("details", .str msg)])
    else
      .json (.obj [("error", .str genErrStr), ("details", .str msg)])

-- ---------------------------------------------------------------------------
-- Envelope accessors.
-- ---------------------------------------------------------------------------

def getField : List (String × Json) → String → Option Json
  | [], _ => none
  | (k, v) :: fs, key => if k == key then some v else getField fs key

def outObjField (o : ToolOutput) (k : String) : Option Json :=
  match o with
  | .json (.obj fs) => getField fs k
  | _ => none

def rowCountOf (o : ToolOutput) : Option Int :=
  match outObjField o "rowCount" with
  | some (.num n) => some n
  | _ => none

def hasRowCountField (o : ToolOutput) : Bool := (outObjField o "rowCount").isSome

def hasMessageField (o : ToolOutput) : Bool := (outObjField o "message").isSome

def hasErrorField (o : ToolOutput) : Bool := (outObjField o "error").isSome

def hintOf (o : ToolOutput) : Option String :=
  match outObjField o "hint" with
  | some (.str s) => some s
  | _ => none

def detailsOf (o : ToolOutput) : Option String :=
  match outObjField o "details" with
  | some (.str s) => some s
  | _ => none

def errorStrOf (o : ToolOutput) : Option String :=
  match outObjField o "error" with
  | some (.str s) => some s
  | _ => none

def dataArr (o : ToolOutput) : Option (List Json) :=
  match outObjField o "data" with
  | some (.arr es) => some es
  | _ => none

def isJsonOut : ToolOutput → Bool
  | .json _ => true
  | .raw _ => false

def isJsonArr : ToolOutput → Bool
  | .json (.arr _) => true
  | _ => false

def tsOfJson (j : Json) : Option Int :=
  match j with
  | .obj fs =>
    match getField fs "timestamp" with
    | some (.num t) => some t
    | _ => none
  | _ => none

def tsListDesc : List Json → Bool
  | [] => true
  | [_] => true
  | a :: b :: r =>
    match tsOfJson a, tsOfJson b with
    | some x, some y => decide (y ≤ x) && tsListDesc (b :: r)
    | _, _ => false

def dataTsDesc (o : ToolOutput) : Option Bool := (dataArr o).map tsListDesc

-- ---------------------------------------------------------------------------
-- Helper lemmas: takeWhile/dropWhile bookkeeping.
-- ---------------------------------------------------------------------------

theorem drop_length_takeWhile (p : Char → Bool) :
    ∀ l : List Char, l.drop (l.takeWhile p).length = l.dropWhile p := by
  intro l
  induction l with
  | nil => rfl
  | cons a t ih =>
    by_cases h : p a
    · simp [List.takeWhile_cons, List.dropWhile_cons, h, ih]
    · simp [List.takeWhile_cons, List.dropWhile_cons, h]

theorem takeWhile_dropWhile_nil (p : Char → Bool) :
    ∀ l : List Char, (l.dropWhile p).takeWhile p = [] := by
  intro l
  induction l with
  | nil => rfl
  | cons a t ih =>
    by_cases h : p a
    · simp [List.dropWhile_cons, h, ih]
    · simp [List.dropWhile_cons, List.takeWhile_cons, h]

theorem takeWhile_append_stop {p : Char → Bool} {y : Char} (hy : p y = false) :
    ∀ (x ys : List Char), (x ++ y :: ys).takeWhile p = x.takeWhile p := by
  intro x ys
  induction x with
  | nil => simp [List.takeWhile_cons, hy]
  | cons a t ih => by_cases h : p a <;> simp [List.takeWhile_cons, h, ih]

theorem dropWhile_append_stop {p : Char → Bool} {y : Char} (hy : p y = false) :
    ∀ (x ys : List Char), (x ++ y :: ys).dropWhile p = x.dropWhile p ++ y :: ys := by
  intro x ys
  induction x with
  | nil => simp [List.dropWhile_cons, hy]
  | cons a t ih => by_cases h : p a <;> simp [List.dropWhile_cons, h, ih]

theorem dropWhile_eq_drop (p : Char → Bool) :
    ∀ l : List Char, ∃ n, l.dropWhile p = l.drop n := by
  intro l
  induction l with
  | nil => exact ⟨0, rfl⟩
  | cons a t ih =>
    by_cases h : p a
    · obtain ⟨n, hn⟩ := ih
      exact ⟨n + 1, by simpa [List.dropWhile_cons, h] using hn⟩
    · exact ⟨0, by simp [List.dropWhile_cons, h]⟩

theorem dropLast_eq_take_len : ∀ l : List Char, l.dropLast = l.take (l.length - 1) := by
  intro l
  induction l with
  | nil => rfl
  | cons a t ih =>
    cases t with
    | nil => rfl
    | cons b u =>
      simp only [List.dropLast_cons₂, List.length_cons, Nat.add_sub_cancel, List.take_succ_cons, ih]

theorem rev_drop_one : ∀ w : List Char, (w.drop 1).reverse = w.reverse.dropLast := by
  intro w
  cases w with
  | nil => rfl
  | cons a t => simp [List.reverse_cons, List.dropLast_concat]

-- ---------------------------------------------------------------------------
-- Helper lemmas: character classes.
-- ---------------------------------------------------------------------------

theorem lowEq_l_class {c : Char} (h : lowEq c 'l' = true) :
    jsSpace c = false ∧ jsDigit c = false ∧ lowEq c 'i' = false ∧
      lowEq c 'm' = false ∧ lowEq c 't' = false := by
  have e1 : ('l').toNat = 108 := rfl
  have e2 : ('i').toNat = 105 := rfl
  have e3 : ('m').toNat = 109 := rfl
  have e4 : ('t').toNat = 116 := rfl
  simp only [lowEq, jsSpace, jsDigit, decide_eq_true_eq, decide_eq_false_iff_not] at h ⊢
  rw [e1] at h
  rw [e2, e3, e4]
  omega

theorem lowEq_sp_i : lowEq ' ' 'i' = false := by decide
theorem lowEq_sp_m : lowEq ' ' 'm' = false := by decide
theorem lowEq_sp_t : lowEq ' ' 't' = false := by decide
theorem lowEq_L_l : lowEq 'L' 'l' = true := by decide
theorem lowEq_I_i : lowEq 'I' 'i' = true := by decide
theorem lowEq_M_m : lowEq 'M' 'm' = true := by decide
theorem lowEq_T_t : lowEq 'T' 't' = true := by decide
theorem jsSpace_sp : jsSpace ' ' = true := by decide
theorem jsSpace_5 : jsSpace '5' = false := by decide
theorem jsDigit_5 : jsDigit '5' = true := by decide
theorem jsDigit_0 : jsDigit '0' = true := by decide
theorem digitsVal_50 : digitsVal ['5', '0'] = 50 := by decide

-- ---------------------------------------------------------------------------
-- Helper lemmas: lowStarts / lowInc.
-- ---------------------------------------------------------------------------

theorem lowStarts_append_mono (pat : List Char) :
    ∀ (u v : List Char), lowStarts pat u = true → lowStarts pat (u ++ v) = true := by
  induction pat with
  | nil => intro u v _; simp [lowStarts]
  | cons p ps ih =>
    intro u v h
    cases u with
    | nil => simp [lowStarts] at h
    | cons a t =>
      simp only [lowStarts, Bool.and_eq_true, List.cons_append] at h ⊢
      exact ⟨h.1, ih t v h.2⟩

theorem lowInc_of_lowStarts {pat l : List Char} (h : lowStarts pat l = true) :
    lowInc pat l = true := by
  cases l with
  | nil => simpa [lowInc] using h
  | cons c cs => simp [lowInc, h]

theorem lowInc_cons_false {pat : List Char} {c : Char} {cs : List Char}
    (h : lowInc pat (c :: cs) = false) :
    lowStarts pat (c :: cs) = false ∧ lowInc pat cs = false := by
  simpa [lowInc] using h

theorem lowInc_take_aux (pat : List Char) :
    ∀ (l : List Char) (n : Nat), lowInc pat (l.take n) = true → lowInc pat l = true := by
  intro l
  induction l with
  | nil => intro n h; simpa using h
  | cons c cs ih =>
    intro n h
    cases n with
    | zero =>
      simp only [List.take_zero, lowInc] at h
      cases pat with
      | nil => simp [lowInc, lowStarts]
      | cons p ps => simp [lowStarts] at h
    | succ m =>
      simp only [List.take_succ_cons, lowInc, Bool.or_eq_true] at h ⊢
      rcases h with h | h
      · left
        have h2 := lowStarts_append_mono pat (c :: cs.take m) (cs.drop m) h
        simpa [List.take_append_drop] using h2
      · right; exact ih m h

theorem lowInc_take_false {pat l : List Char} (h : lowInc pat l = false) (n : Nat) :
    lowInc pat (l.take n) = false := by
  by_contra hc
  have h1 : lowInc pat (l.take n) = true := by
    revert hc; cases lowInc pat (l.take n) <;> simp
  rw [lowInc_take_aux pat l n h1] at h
  exact absurd h (by simp)

theorem lowInc_drop_false {pat : List Char} :
    ∀ (l : List Char), lowInc pat l = false → ∀ n, lowInc pat (l.drop n) = false := by
  intro l
  induction l with
  | nil => intro h n; simpa using h
  | cons c cs ih =>
    intro h n
    cases n with
    | zero => simpa using h
    | succ m => exact by simpa [List.drop_succ_cons] using ih (lowInc_cons_false h).2 m

theorem lowInc_dropLast_false {pat l : List Char} (h : lowInc pat l = false) :
    lowInc pat l.dropLast = false := by
  rw [dropLast_eq_take_len]
  exact lowInc_take_false h _

theorem lowInc_rev_drop_rev_false {pat : List Char} (x : List Char) (h : lowInc pat x = false) :
    ∀ n, lowInc pat ((x.reverse.drop n).reverse) = false := by
  intro n
  induction n with
  | zero => simpa [List.reverse_reverse] using h
  | succ m ih =>
    have h1 : x.reverse.drop (m + 1) = (x.reverse.drop m).drop 1 := by
      rw [List.drop_drop]
    have key : (x.reverse.drop (m + 1)).reverse = ((x.reverse.drop m).reverse).dropLast := by
      rw [h1, rev_drop_one]
    rw [key]
    exact lowInc_dropLast_false ih

theorem lowInc_trim_strip_false {pat : List Char} {q : List Char} (h : lowInc pat q = false) :
    lowInc pat (stripSemi (jsTrim q)) = false := by
  have h1 : lowInc pat (q.dropWhile jsSpace) = false := by
    obtain ⟨n, hn⟩ := dropWhile_eq_drop jsSpace q
    rw [hn]; exact lowInc_drop_false q h n
  have h2 : lowInc pat (jsTrim q) = false := by
    unfold jsTrim
    obtain ⟨n, hn⟩ := dropWhile_eq_drop jsSpace (q.dropWhile jsSpace).reverse
    rw [hn]
    exact lowInc_rev_drop_rev_false _ h1 n
  unfold stripSemi
  by_cases hs : (jsTrim q).getLast? == some ';'
  · simp only [hs, if_pos]
    exact lowInc_dropLast_false h2
  · simp only [hs]
    simpa using h2

-- ---------------------------------------------------------------------------
-- Structural lemmas about matchAt / findLimit.
-- ---------------------------------------------------------------------------

theorem guard_eq_lowStarts (a b c d e : Char) (z : List Char) :
    (lowEq a 'l' && lowEq b 'i' && lowEq c 'm' && lowEq d 'i' && lowEq e 't') =
      lowStarts limitP (a :: b :: c :: d :: e :: z) := by
  simp [limitP, lowStarts, Bool.and_assoc]

theorem lowStarts_limit_five (a b c d e : Char) (z z' : List Char) :
    lowStarts limitP (a :: b :: c :: d :: e :: z) =
      lowStarts limitP (a :: b :: c :: d :: e :: z') := by
  simp [limitP, lowStarts]

theorem lowStarts_limit_dest {l : List Char} (h : lowStarts limitP l = true) :
    ∃ a b c d e r, l = a :: b :: c :: d :: e :: r ∧ lowEq a 'l' = true ∧
      lowEq b 'i' = true ∧ lowEq c 'm' = true ∧ lowEq d 'i' = true ∧ lowEq e 't' = true := by
  rcases l with _ | ⟨a, _ | ⟨b, _ | ⟨c, _ | ⟨d, _ | ⟨e, r⟩⟩⟩⟩⟩
  · simp [limitP, lowStarts] at h
  · simp [limitP, lowStarts] at h
  · simp [limitP, lowStarts] at h
  · simp [limitP, lowStarts] at h
  · simp [limitP, lowStarts] at h
  · simp only [limitP, lowStarts, Bool.and_eq_true] at h
    exact ⟨a, b, c, d, e, r, rfl, h.1, h.2.1, h.2.2.1, h.2.2.2.1, h.2.2.2.2.1⟩

theorem matchAt_some_lowStarts {l : List Char} {r : Nat × Nat} (h : matchAt l = some r) :
    lowStarts limitP l = true := by
  rcases l with _ | ⟨c1, _ | ⟨c2, _ | ⟨c3, _ | ⟨c4, _ | ⟨c5, rest⟩⟩⟩⟩⟩
  · simp [matchAt] at h
  · simp [matchAt] at h
  · simp [matchAt] at h
  · simp [matchAt] at h
  · simp [matchAt] at h
  · simp only [matchAt] at h
    by_cases hg : (lowEq c1 'l' && lowEq c2 'i' && lowEq c3 'm' && lowEq c4 'i' && lowEq c5 't') = true
    · rw [← guard_eq_lowStarts c1 c2 c3 c4 c5 rest]
      exact hg
    · rw [if_neg hg] at h
      exact absurd h (by simp)

theorem findLimit_some_lowInc : ∀ {l : List Char} {r : Nat × Nat},
    findLimit l = some r → lowInc limitP l = true := by
  intro l
  induction l with
  | nil => intro r h; simp [findLimit] at h
  | cons c cs ih =>
    intro r h
    cases hm : matchAt (c :: cs) with
    | some x => exact lowInc_of_lowStarts (matchAt_some_lowStarts hm)
    | none =>
      simp only [findLimit, hm] at h
      simp [lowInc, ih h]

-- No "limit" window can straddle a block with no "limit" occurrence followed
-- by the appended " LIMIT 50" text (its first character is a space).
theorem lowStarts_append_sfx_false :
    ∀ (x : List Char), x ≠ [] → lowInc limitP x = false →
      lowStarts limitP (x ++ appendTxt) = false := by
  intro x hx h
  rcases x with _ | ⟨a, _ | ⟨b, _ | ⟨c, _ | ⟨d, _ | ⟨e, r⟩⟩⟩⟩⟩
  · exact absurd rfl hx
  · simp [appendTxt, limitP, lowStarts, lowEq_sp_i]
  · simp [appendTxt, limitP, lowStarts, lowEq_sp_m]
  · simp [appendTxt, limitP, lowStarts, lowEq_sp_i]
  · simp [appendTxt, limitP, lowStarts, lowEq_sp_t]
  · have hfirst : lowStarts limitP (a :: b :: c :: d :: e :: r) = false := (lowInc_cons_false h).1
    calc lowStarts limitP ((a :: b :: c :: d :: e :: r) ++ appendTxt)
        = lowStarts limitP (a :: b :: c :: d :: e :: (r ++ appendTxt)) := by
          simp only [List.cons_append]
      _ = lowStarts limitP (a :: b :: c :: d :: e :: r) := lowStarts_limit_five a b c d e _ r
      _ = false := hfirst

theorem matchAt_append_sfx_none :
    ∀ (x : List Char), x ≠ [] → lowInc limitP x = false →
      matchAt (x ++ appendTxt) = none := by
  intro x hx h
  rcases x with _ | ⟨a, _ | ⟨b, _ | ⟨c, _ | ⟨d, _ | ⟨e, r⟩⟩⟩⟩⟩
  · exact absurd rfl hx
  · simp [appendTxt, matchAt, lowEq_sp_i]
  · simp [appendTxt, matchAt, lowEq_sp_m]
  · simp [appendTxt, matchAt, lowEq_sp_i]
  · simp [appendTxt, matchAt, lowEq_sp_t]
  · have hfirst : lowStarts limitP (a :: b :: c :: d :: e :: r) = false := (lowInc_cons_false h).1
    simp only [List.cons_append, matchAt]
    rw [guard_eq_lowStarts a b c d e (r ++ appendTxt), lowStarts_limit_five a b c d e _ r, hfirst]
    simp

theorem countLimitOcc_append_sfx :
    ∀ (x : List Char), lowInc limitP x = false →
      countLimitOcc (x ++ appendTxt) = countLimitOcc appendTxt := by
  intro x
  induction x with
  | nil => intro _; rfl
  | cons a t ih =>
    intro h
    have hs : lowStarts limitP (a :: (t ++ appendTxt)) = false := by
      have h2 := lowStarts_append_sfx_false (a :: t) (by simp) h
      simpa [List.cons_append] using h2
    have hstep : countLimitOcc ((a :: t) ++ appendTxt) = countLimitOcc (t ++ appendTxt) := by
      rw [List.cons_append]
      show (if lowStarts limitP (a :: (t ++ appendTxt)) then 1 else 0) +
          countLimitOcc (t ++ appendTxt) = countLimitOcc (t ++ appendTxt)
      rw [hs]
      simp
    rw [hstep]
    exact ih (lowInc_cons_false h).2

theorem findLimit_append_sfx :
    ∀ (x : List Char), lowInc limitP x = false →
      findLimit (x ++ appendTxt) = findLimit appendTxt := by
  intro x
  induction x with
  | nil => intro _; rfl
  | cons a t ih =>
    intro h
    have hm : matchAt (a :: (t ++ appendTxt)) = none := by
      have h2 := matchAt_append_sfx_none (a :: t) (by simp) h
      simpa [List.cons_append] using h2
    have hstep : findLimit ((a :: t) ++ appendTxt) = findLimit (t ++ appendTxt) := by
      rw [List.cons_append]
      show (match matchAt (a :: (t ++ appendTxt)) with
            | some r => some r
            | none => findLimit (t ++ appendTxt)) = findLimit (t ++ appendTxt)
      rw [hm]
    rw [hstep]
    exact ih (lowInc_cons_false h).2

theorem findLimit_appendTxt : findLimit appendTxt = some (8, 50) := by decide

theorem countLimitOcc_appendTxt : countLimitOcc appendTxt = 1 := by decide

-- ---------------------------------------------------------------------------
-- Congruence of matchAt across a continuation that starts with a "limit"-like
-- window: the scan outcome at an earlier position does not depend on which
-- such continuation follows (its head character stops every run).
-- ---------------------------------------------------------------------------

theorem matchAt_congr :
    ∀ (p s s' : List Char), p ≠ [] → lowStarts limitP s = true → lowStarts limitP s' = true →
      matchAt (p ++ s) = matchAt (p ++ s') := by
  intro p s s' hp hs hs'
  obtain ⟨a1, a2, a3, a4, a5, sr, rfl, hA1, hA2, hA3, hA4, hA5⟩ := lowStarts_limit_dest hs
  obtain ⟨b1, b2, b3, b4, b5, br, rfl, hB1, hB2, hB3, hB4, hB5⟩ := lowStarts_limit_dest hs'
  obtain ⟨hA1s, hA1d, hA1i, hA1m, hA1t⟩ := lowEq_l_class hA1
  obtain ⟨hB1s, hB1d, hB1i, hB1m, hB1t⟩ := lowEq_l_class hB1
  rcases p with _ | ⟨x1, _ | ⟨x2, _ | ⟨x3, _ | ⟨x4, _ | ⟨x5, pr⟩⟩⟩⟩⟩
  · exact absurd rfl hp
  · simp [matchAt, hA1i, hB1i]
  · simp [matchAt, hA1m, hB1m]
  · simp [matchAt, hA1i, hB1i]
  · simp [matchAt, hA1t, hB1t]
  · have e1 := takeWhile_append_stop hA1s pr (a2 :: a3 :: a4 :: a5 :: sr)
    have e2 := dropWhile_append_stop hA1s pr (a2 :: a3 :: a4 :: a5 :: sr)
    have e3 := takeWhile_append_stop hA1d (pr.dropWhile jsSpace) (a2 :: a3 :: a4 :: a5 :: sr)
    have f1 := takeWhile_append_stop hB1s pr (b2 :: b3 :: b4 :: b5 :: br)
    have f2 := dropWhile_append_stop hB1s pr (b2 :: b3 :: b4 :: b5 :: br)
    have f3 := takeWhile_append_stop hB1d (pr.dropWhile jsSpace) (b2 :: b3 :: b4 :: b5 :: br)
    simp only [List.cons_append, matchAt, e1, e2, e3, f1, f2, f3]

-- Structure of replaceFirst on a string with a match: a match-free block,
-- then "LIMIT 50", then a remainder; the original continues at the block with
-- a "limit"-like window.
theorem replaceFirst_split :
    ∀ (cs : List Char) (len n : Nat), findLimit cs = some (len, n) →
      ∃ p t r, cs = p ++ t ∧ lowStarts limitP t = true ∧
        replaceFirst cs = p ++ (replTxt ++ r) := by
  intro cs
  induction cs with
  | nil => intro len n h; simp [findLimit] at h
  | cons c cs' ih =>
    intro len n h
    cases hm : matchAt (c :: cs') with
    | some x =>
      refine ⟨[], c :: cs', (c :: cs').drop x.1, rfl, matchAt_some_lowStarts hm, ?_⟩
      obtain ⟨L, v⟩ := x
      show replaceFirst (c :: cs') = [] ++ (replTxt ++ (c :: cs').drop L)
      show (match matchAt (c :: cs') with
            | some (len, _) => replTxt ++ (c :: cs').drop len
            | none => c :: replaceFirst cs') = [] ++ (replTxt ++ (c :: cs').drop L)
      rw [hm]
      simp
    | none =>
      simp only [findLimit, hm] at h
      obtain ⟨p, t, r, hsplit, hst, hrep⟩ := ih len n h
      refine ⟨c :: p, t, r, by simp [hsplit], hst, ?_⟩
      show (match matchAt (c :: cs') with
            | some (len, _) => replTxt ++ (c :: cs').drop len
            | none => c :: replaceFirst cs') = (c :: p) ++ (replTxt ++ r)
      rw [hm, hrep]
      simp

theorem lowStarts_replTxt_append (r : List Char) : lowStarts limitP (replTxt ++ r) = true := by
  simp [replTxt, limitP, lowStarts, lowEq_L_l, lowEq_I_i, lowEq_M_m, lowEq_T_t]

-- After a successful match, the remainder starts with a non-digit: the
-- matched text swallowed the maximal digit run.
theorem matchAt_drop_digits {c : Char} {cs' : List Char} {L v : Nat}
    (hm : matchAt (c :: cs') = some (L, v)) :
    ((c :: cs').drop L).takeWhile jsDigit = [] := by
  rcases cs' with _ | ⟨c2, _ | ⟨c3, _ | ⟨c4, _ | ⟨c5, rest⟩⟩⟩⟩
  · simp [matchAt] at hm
  · simp [matchAt] at hm
  · simp [matchAt] at hm
  · simp [matchAt] at hm
  · simp only [matchAt] at hm
    by_cases hg : (lowEq c 'l' && lowEq c2 'i' && lowEq c3 'm' && lowEq c4 'i' && lowEq c5 't') = true
    · rw [if_pos hg] at hm
      by_cases hz : ((rest.takeWhile jsSpace).length == 0 ||
          (((rest.dropWhile jsSpace).takeWhile jsDigit).length == 0)) = true
      · rw [if_pos hz] at hm
        exact absurd hm (by simp)
      · rw [if_neg hz] at hm
        have hL : L = 5 + (rest.takeWhile jsSpace).length +
            ((rest.dropWhile jsSpace).takeWhile jsDigit).length := by
          have := congrArg (fun o => Option.map Prod.fst o) hm
          simpa using this.symm
        rw [hL]
        have hdrop : (c :: c2 :: c3 :: c4 :: c5 :: rest).drop
            (5 + (rest.takeWhile jsSpace).length +
              ((rest.dropWhile jsSpace).takeWhile jsDigit).length) =
            rest.drop ((rest.takeWhile jsSpace).length +
              ((rest.dropWhile jsSpace).takeWhile jsDigit).length) := by
          have harr : 5 + (rest.takeWhile jsSpace).length +
              ((rest.dropWhile jsSpace).takeWhile jsDigit).length =
              5 + ((rest.takeWhile jsSpace).length +
                ((rest.dropWhile jsSpace).takeWhile jsDigit).length) := by omega
          have h1 : List.drop ((rest.takeWhile jsSpace).length +
              ((rest.dropWhile jsSpace).takeWhile jsDigit).length)
              (List.drop 5 (c :: c2 :: c3 :: c4 :: c5 :: rest)) =
              List.drop (5 + ((rest.takeWhile jsSpace).length +
                ((rest.dropWhile jsSpace).takeWhile jsDigit).length))
                (c :: c2 :: c3 :: c4 :: c5 :: rest) := by
            rw [List.drop_drop]
          rw [harr, ← h1]
          rfl
        rw [hdrop, ← List.drop_drop, drop_length_takeWhile, drop_length_takeWhile,
          takeWhile_dropWhile_nil]
    · rw [if_neg hg] at hm
      exact absurd hm (by simp)

theorem findLimitVal_replTxt_append (z : List Char) (hz : z.takeWhile jsDigit = []) :
    findLimitVal (replTxt ++ z) = some 50 := by
  have hws : (' ' :: '5' :: '0' :: z).takeWhile jsSpace = [' '] := by
    simp [List.takeWhile_cons, jsSpace_sp, jsSpace_5]
  have hds : ((' ' :: '5' :: '0' :: z).dropWhile jsSpace).takeWhile jsDigit = ['5', '0'] := by
    simp [List.dropWhile_cons, List.takeWhile_cons, jsSpace_sp, jsSpace_5, jsDigit_5, jsDigit_0, hz]
  have hmatch : matchAt ('L' :: 'I' :: 'M' :: 'I' :: 'T' :: ' ' :: '5' :: '0' :: z) =
      some (8, 50) := by
    simp only [matchAt, lowEq_L_l, lowEq_I_i, lowEq_M_m, lowEq_T_t, Bool.and_self, Bool.and_true,
      if_pos, hws, hds]
    simp [digitsVal_50]
  show findLimitVal ('L' :: 'I' :: 'M' :: 'I' :: 'T' :: ' ' :: '5' :: '0' :: z) = some 50
  unfold findLimitVal
  show Option.map (fun r => r.2) (match matchAt ('L' :: 'I' :: 'M' :: 'I' :: 'T' :: ' ' :: '5' :: '0' :: z) with
        | some r => some r
        | none => findLimit (' ' :: '5' :: '0' :: z)) = some 50
  rw [hmatch]
  rfl

-- The first match of the replaced string is the replacement text itself, so
-- the extracted cap of the replaced string is 50.
theorem findLimitVal_replaceFirst :
    ∀ (cs : List Char) (len n : Nat), findLimit cs = some (len, n) →
      findLimitVal (replaceFirst cs) = some 50 := by
  intro cs
  induction cs with
  | nil => intro len n h; simp [findLimit] at h
  | cons c cs' ih =>
    intro len n h
    cases hm : matchAt (c :: cs') with
    | some x =>
      obtain ⟨L, v⟩ := x
      have hrep : replaceFirst (c :: cs') = replTxt ++ (c :: cs').drop L := by
        show (match matchAt (c :: cs') with
              | some (len, _) => replTxt ++ (c :: cs').drop len
              | none => c :: replaceFirst cs') = replTxt ++ (c :: cs').drop L
        rw [hm]
      rw [hrep]
      exact findLimitVal_replTxt_append _ (matchAt_drop_digits hm)
    | none =>
      simp only [findLimit, hm] at h
      have hrep : replaceFirst (c :: cs') = c :: replaceFirst cs' := by
        show (match matchAt (c :: cs') with
              | some (len, _) => replTxt ++ (c :: cs').drop len
              | none => c :: replaceFirst cs') = c :: replaceFirst cs'
        rw [hm]
      obtain ⟨p, t, r, hsplit, hst, hrep'⟩ := replaceFirst_split cs' len n h
      have hcongr : matchAt (c :: replaceFirst cs') = none := by
        rw [hrep']
        have hassoc : c :: (p ++ (replTxt ++ r)) = (c :: p) ++ (replTxt ++ r) := by simp
        rw [hassoc, matchAt_congr (c :: p) (replTxt ++ r) t (by simp)
          (lowStarts_replTxt_append r) hst]
        rw [show (c :: p) ++ t = c :: cs' from by simp [hsplit]]
        exact hm
      have hstep : findLimitVal (c :: replaceFirst cs') = findLimitVal (replaceFirst cs') := by
        unfold findLimitVal
        show Option.map (fun r => r.2) (match matchAt (c :: replaceFirst cs') with
              | some r => some r
              | none => findLimit (replaceFirst cs')) =
            Option.map (fun r => r.2) (findLimit (replaceFirst cs'))
        rw [hcongr]
      rw [hrep, hstep]
      exact ih len n h

-- ---------------------------------------------------------------------------
-- The descending sort of the mock backend.
-- ---------------------------------------------------------------------------

theorem mem_insertByTsDesc {r a : MockLog} :
    ∀ {l : List MockLog}, a ∈ insertByTsDesc r l ↔ a = r ∨ a ∈ l := by
  intro l
  induction l with
  | nil => simp [insertByTsDesc]
  | cons x xs ih =>
    by_cases h : r.timestamp ≤ x.timestamp
    · simp only [insertByTsDesc, if_pos h, List.mem_cons, ih]
      tauto
    · simp only [insertByTsDesc, if_neg h, List.mem_cons]

theorem pairwise_insertByTsDesc {r : MockLog} :
    ∀ {l : List MockLog}, List.Pairwise (fun a b => b.timestamp ≤ a.timestamp) l →
      List.Pairwise (fun a b => b.timestamp ≤ a.timestamp) (insertByTsDesc r l) := by
  intro l
  induction l with
  | nil => intro _; simp [insertByTsDesc]
  | cons x xs ih =>
    intro hl
    rcases List.pairwise_cons.mp hl with ⟨hx, hxs⟩
    by_cases h : r.timestamp ≤ x.timestamp
    · simp only [insertByTsDesc, if_pos h]
      refine List.pairwise_cons.mpr ⟨?_, ih hxs⟩
      intro b hb
      rcases mem_insertByTsDesc.mp hb with rfl | hb'
      · exact h
      · exact hx b hb'
    · simp only [insertByTsDesc, if_neg h]
      push_neg at h
      refine List.pairwise_cons.mpr ⟨?_, hl⟩
      intro b hb
      rcases List.mem_cons.mp hb with rfl | hb'
      · exact le_of_lt h
      · exact le_trans (hx b hb') (le_of_lt h)

theorem pairwise_sortByTsDesc (l : List MockLog) :
    List.Pairwise (fun a b => b.timestamp ≤ a.timestamp) (sortByTsDesc l) := by
  induction l with
  | nil => simp [sortByTsDesc]
  | cons x xs ih => exact pairwise_insertByTsDesc ih

theorem tsListDesc_map_mockLogJson :
    ∀ l : List MockLog, List.Pairwise (fun a b => b.timestamp ≤ a.timestamp) l →
      tsListDesc (l.map mockLogJson) = true := by
  intro l
  induction l with
  | nil => intro _; rfl
  | cons a t ih =>
    intro hp
    rcases List.pairwise_cons.mp hp with ⟨ha, ht⟩
    cases t with
    | nil => rfl
    | cons b t2 =>
      have hb : b.timestamp ≤ a.timestamp := ha b (by simp)
      have ih2 := ih ht
      have e : ∀ r : MockLog, tsOfJson (mockLogJson r) = some r.timestamp := fun r => rfl
      simp only [List.map_cons] at ih2 ⊢
      simp [tsListDesc, e, hb, ih2]

-- The if/else-if chain of the source equals the first-match-wins search over
-- the fixed ordered service list.
theorem originFilter_eq (q : List Char) (l : List MockLog) :
    originFilter q l =
      (if lowInc "payment".data q then l.filter (fun r => plainInc "payment".data r.service.data)
       else if lowInc "checkout".data q then l.filter (fun r => plainInc "checkout".data r.service.data)
       else if lowInc "auth".data q then l.filter (fun r => plainInc "auth".data r.service.data)
       else l) := by
  cases h1 : lowInc "payment".data q <;> cases h2 : lowInc "checkout".data q <;>
    cases h3 : lowInc "auth".data q <;>
      simp [originFilter, firstServiceMatch, serviceNames, List.find?, h1, h2, h3]

-- ---------------------------------------------------------------------------
-- Claims.
-- ---------------------------------------------------------------------------

/-- Counterexample to C1: with a runtime exception in the mock handler's try
block, the catch clause returns plain text, not a JSON document and not a
serialized ErrorEnvelope. -/
theorem c1_counterexample :
    isJsonOut (mockToolHandler 0 0 "select".data (some "boom")) = false ∧
    mockToolHandler 0 0 "select".data (some "boom") =
      ToolOutput.raw "Error simulating log query: boom" :=
  ⟨rfl, rfl⟩

/-- Claim C1 (corrected, amended): both handlers always return a string and
never raise; every path of the live handler, success or failure, yields one
serialized JSON document, and the mock handler's pure path does too; only the
mock handler's exception path yields non-JSON text. -/
theorem c1_amended_json_outputs :
    (∀ (q : List Char) (exec : List Char → Except String (List LiveRow)),
      isJsonOut (liveToolHandler q exec) = true) ∧
    (∀ (t0 now : Int) (q : List Char), isJsonOut (mockToolHandler t0 now q none) = true) := by
  constructor
  · intro q exec
    cases h : exec (sanitize q) with
    | ok rows =>
      by_cases hl : rows.length = 0
      · simp [liveToolHandler, h, hl, isJsonOut]
      · simp [liveToolHandler, h, hl, isJsonOut]
    | error msg =>
      cases h1 : plainInc ntfPat msg.data
      · cases h2 : plainInc permPat msg.data
        · simp [liveToolHandler, h, h1, h2, isJsonOut]
        · simp [liveToolHandler, h, h1, h2, isJsonOut]
      · simp [liveToolHandler, h, h1, isJsonOut]
  · intro t0 now q
    rfl

/-- Counterexample to C2: a successful mock invocation returns a bare JSON
array, with no rowCount envelope field. -/
theorem c2_counterexample :
    isJsonArr (mockToolHandler 0 0 "checkout".data none) = true ∧
    hasRowCountField (mockToolHandler 0 0 "checkout".data none) = false :=
  ⟨rfl, rfl⟩

/-- Claim C2 (corrected, amended): successful live invocations return an
envelope whose rowCount equals the number of data rows, with a message when
empty; successful mock invocations return the bare serialized array of matched
records, with no rowCount and no message field. -/
theorem c2_amended_envelopes :
    (∀ (q : List Char) (exec : List Char → Except String (List LiveRow)) (rows : List LiveRow),
      exec (sanitize q) = Except.ok rows →
        rowCountOf (liveToolHandler q exec) = some (rows.length : Int) ∧
        (rows.length = 0 → hasMessageField (liveToolHandler q exec) = true)) ∧
    (∀ (t0 now : Int) (q : List Char),
      isJsonArr (mockToolHandler t0 now q none) = true ∧
      hasRowCountField (mockToolHandler t0 now q none) = false) := by
  constructor
  · intro q exec rows h
    by_cases hl : rows.length = 0
    · constructor
      · simp [liveToolHandler, h, hl, rowCountOf, outObjField, getField]
      · intro _
        simp [liveToolHandler, h, hl, hasMessageField, outObjField, getField]
    · constructor
      · simp [liveToolHandler, h, hl, rowCountOf, outObjField, getField]
      · intro h0
        exact absurd h0 hl
  · intro t0 now q
    exact ⟨rfl, rfl⟩

/-- Witness for the amended C2 at a one-row live success and a mock success. -/
theorem c2_witness :
    rowCountOf (liveToolHandler "q".data (fun _ => Except.ok [⟨7, []⟩])) = some 1 ∧
    hasRowCountField (mockToolHandler 0 0 "x".data none) = false := by
  constructor
  · have h := (c2_amended_envelopes.1 "q".data (fun _ => Except.ok [⟨7, []⟩]) [⟨7, []⟩] rfl).1
    simpa using h
  · exact (c2_amended_envelopes.2 0 0 "x".data).2

/-- Claim C3 (confirmed): the mock backend's result is exactly the severity
filter, then the first-match-wins origin filter over the fixed ordered service
list, then the recency filter, then truncation to the extracted row cap
(default 50), and finally the sort by timestamp descending. -/
theorem c3_mock_pipeline_order (t0 now : Int) (q : List Char) :
    mockQuery t0 now q =
      sortByTsDesc ((recencyFilter now q (originFilter q (severityFilter q (mockLogs t0)))).take
        (rowCap q)) := by
  rw [originFilter_eq]
  rfl

/-- Counterexample to C4: the live adapter does not sort; with upstream rows
in ascending timestamp order the returned envelope's data is not
non-increasing. -/
theorem c4_counterexample :
    dataTsDesc (liveToolHandler "select 1".data
      (fun _ => Except.ok [⟨1, []⟩, ⟨5, []⟩])) = some false := by
  decide

/-- Claim C4 (corrected, amended): the mock backend's returned records have
monotonically non-increasing timestamps (also after serialization); the live
adapter returns the store's rows 1:1 in upstream order with no reordering, so
its envelope is recency-ordered only when the upstream rows already are. -/
theorem c4_amended_ordering :
    (∀ (t0 now : Int) (q : List Char),
      List.Pairwise (fun a b : MockLog => b.timestamp ≤ a.timestamp) (mockQuery t0 now q)) ∧
    (∀ (t0 now : Int) (q : List Char),
      tsListDesc ((mockQuery t0 now q).map mockLogJson) = true) ∧
    (∀ (q : List Char) (exec : List Char → Except String (List LiveRow)) (rows : List LiveRow),
      exec (sanitize q) = Except.ok rows → rows ≠ [] →
        dataArr (liveToolHandler q exec) = some (rows.map liveRowJson)) := by
  refine ⟨?_, ?_, ?_⟩
  · intro t0 now q
    exact pairwise_sortByTsDesc (mockSelect t0 now q)
  · intro t0 now q
    exact tsListDesc_map_mockLogJson _ (pairwise_sortByTsDesc (mockSelect t0 now q))
  · intro q exec rows h hne
    have hl : ¬(rows.length = 0) := fun h0 => hne (List.length_eq_zero.mp h0)
    simp [liveToolHandler, h, hl, dataArr, outObjField, getField]

/-- Witness for the amended C4: the live adapter passes two rows through
unchanged. -/
theorem c4_witness :
    dataArr (liveToolHandler "q2".data (fun _ => Except.ok [⟨3, []⟩, ⟨9, []⟩])) =
      some [liveRowJson ⟨3, []⟩, liveRowJson ⟨9, []⟩] := by
  have h := c4_amended_ordering.2.2 "q2".data (fun _ => Except.ok [⟨3, []⟩, ⟨9, []⟩])
    [⟨3, []⟩, ⟨9, []⟩] rfl (by simp)
  simpa using h

/-- Claim C5 (confirmed): for every query with no case-insensitive "limit"
substring, the Sanitizer's output contains exactly one limiting clause, and
its extracted cap is the default 50. -/
theorem c5_sanitizer_appends_single_limit (q : List Char) (h : lowInc limitP q = false) :
    countLimitOcc (sanitize q) = 1 ∧ findLimitVal (sanitize q) = some 50 := by
  have hA : lowInc limitP (stripSemi (jsTrim q)) = false := lowInc_trim_strip_false h
  have hens : ensureLimit q = stripSemi (jsTrim q) ++ appendTxt := by
    unfold ensureLimit
    rw [if_neg (by simp [h])]
  have hfind : findLimit (stripSemi (jsTrim q) ++ appendTxt) = some (8, 50) := by
    rw [findLimit_append_sfx _ hA, findLimit_appendTxt]
  have hsan : sanitize q = stripSemi (jsTrim q) ++ appendTxt := by
    unfold sanitize capLimit
    rw [hens, hfind]
    show (if 100 < 50 then replaceFirst (stripSemi (jsTrim q) ++ appendTxt)
        else stripSemi (jsTrim q) ++ appendTxt) = stripSemi (jsTrim q) ++ appendTxt
    rw [if_neg (by omega)]
  constructor
  · rw [hsan, countLimitOcc_append_sfx _ hA, countLimitOcc_appendTxt]
  · rw [hsan]
    unfold findLimitVal
    rw [hfind]
    rfl

/-- Witness for C5 at the concrete query "SELECT * FROM logs;". -/
theorem c5_witness :
    lowInc limitP "SELECT * FROM logs;".data = false ∧
    countLimitOcc (sanitize "SELECT * FROM logs;".data) = 1 ∧
    findLimitVal (sanitize "SELECT * FROM logs;".data) = some 50 :=
  ⟨by decide, (c5_sanitizer_appends_single_limit _ (by decide)).1,
    (c5_sanitizer_appends_single_limit _ (by decide)).2⟩

/-- Claim C6 (confirmed): when the first row-limiting clause declares cap n,
the Sanitizer's output caps at 50 if n exceeds 100, and the query is left
unchanged (cap n kept) if n is at most 100. -/
theorem c6_sanitizer_caps (q : List Char) (len n : Nat)
    (h : findLimit q = some (len, n)) :
    (100 < n → findLimitVal (sanitize q) = some 50) ∧ (n ≤ 100 → sanitize q = q) := by
  have hens : ensureLimit q = q := by
    unfold ensureLimit
    rw [if_pos (findLimit_some_lowInc h)]
  constructor
  · intro hn
    have hcap : sanitize q = replaceFirst q := by
      unfold sanitize capLimit
      rw [hens, h]
      show (if 100 < n then replaceFirst q else q) = replaceFirst q
      rw [if_pos hn]
    rw [hcap]
    exact findLimitVal_replaceFirst q len n h
  · intro hn
    unfold sanitize capLimit
    rw [hens, h]
    show (if 100 < n then replaceFirst q else q) = q
    rw [if_neg (by omega)]

/-- Witness for C6 at the concrete query "select limit 200". -/
theorem c6_witness :
    findLimit "select limit 200".data = some (9, 200) ∧
    findLimitVal (sanitize "select limit 200".data) = some 50 :=
  ⟨by decide, (c6_sanitizer_caps "select limit 200".data 9 200 (by decide)).1 (by omega)⟩

/-- Counterexample to C7: an internal error in the mock handler is reported as
plain text, not as a zero-row ResultEnvelope with a message. -/
theorem c7_counterexample :
    mockToolHandler 0 0 "sel".data (some "oops") =
      ToolOutput.raw "Error simulating log query: oops" ∧
    rowCountOf (mockToolHandler 0 0 "sel".data (some "oops")) = none ∧
    isJsonOut (mockToolHandler 0 0 "sel".data (some "oops")) = false :=
  ⟨rfl, rfl, rfl⟩

/-- Claim C7 (corrected, amended): the mock handler's body is total — absent a
runtime exception it returns the serialized result for every query — and a
runtime exception is reported as a plain text message, which is neither a
zero-row ResultEnvelope nor an ErrorEnvelope. -/
theorem c7_amended_mock_never_fails :
    (∀ (t0 now : Int) (q : List Char), isJsonOut (mockToolHandler t0 now q none) = true) ∧
    (∀ (t0 now : Int) (q : List Char) (m : String),
      mockToolHandler t0 now q (some m) =
        ToolOutput.raw ("Error simulating log query: " ++ m) ∧
      hasErrorField (mockToolHandler t0 now q (some m)) = false ∧
      rowCountOf (mockToolHandler t0 now q (some m)) = none) :=
  ⟨fun _ _ _ => rfl, fun _ _ _ _ => ⟨rfl, rfl, rfl⟩⟩

/-- Claim C8 (confirmed): every failing live execution is classified into
exactly one of three kinds — missing-table with a provisioning hint,
permission with a hint naming the read-only roles, or generic carrying the raw
message — and in each the raw message is kept in the details field. -/
theorem c8_live_error_classification (q : List Char)
    (exec : List Char → Except String (List LiveRow)) (msg : String)
    (h : exec (sanitize q) = Except.error msg) :
    (plainInc ntfPat msg.data = true →
      errorStrOf (liveToolHandler q exec) = some mtErrStr ∧
      hintOf (liveToolHandler q exec) = some mtHintStr ∧
      detailsOf (liveToolHandler q exec) = some msg) ∧
    (plainInc ntfPat msg.data = false → plainInc permPat msg.data = true →
      errorStrOf (liveToolHandler q exec) = some pdErrStr ∧
      hintOf (liveToolHandler q exec) = some pdHintStr ∧
      detailsOf (liveToolHandler q exec) = some msg) ∧
    (plainInc ntfPat msg.data = false → plainInc permPat msg.data = false →
      errorStrOf (liveToolHandler q exec) = some genErrStr ∧
      hintOf (liveToolHandler q exec) = none ∧
      detailsOf (liveToolHandler q exec) = some msg) := by
  refine ⟨?_, ?_, ?_⟩
  · intro h1
    simp [liveToolHandler, h, h1, errorStrOf, hintOf, detailsOf, outObjField, getField]
  · intro h1 h2
    simp [liveToolHandler, h, h1, h2, errorStrOf, hintOf, detailsOf, outObjField, getField]
  · intro h1 h2
    simp [liveToolHandler, h, h1, h2, errorStrOf, hintOf, detailsOf, outObjField, getField]

/-- Witness for C8 at a permission-denied failure. -/
theorem c8_witness :
    errorStrOf (liveToolHandler "q".data (fun _ => Except.error "permission denied")) =
      some pdErrStr ∧
    hintOf (liveToolHandler "q".data (fun _ => Except.error "permission denied")) =
      some pdHintStr := by
  have h := (c8_live_error_classification "q".data (fun _ => Except.error "permission denied")
    "permission denied" rfl).2.1 (by decide) (by decide)
  exact ⟨h.1, h.2.1⟩

/-- Counterexample to C9: for a query with a recency signal, two invocations
at different wall-clock times match different trace-identifier sets over the
fixed corpus. -/
theorem c9_counterexample :
    "trace-def456" ∈ (mockQuery 0 0 "error 30 minute".data).map (fun r => r.trace_id) ∧
    "trace-def456" ∉ (mockQuery 0 1260000 "error 30 minute".data).map (fun r => r.trace_id) := by
  decide

/-- Claim C9 (corrected, amended): the mock output depends on the invocation
wall clock only through the recency cutoffs; for queries signalling no recency
window, two invocations at any two times yield identical outputs (hence
identical trace sets). -/
theorem c9_amended_wallclock_dependence (t0 : Int) (q : List Char) (now1 now2 : Int)
    (h30 : lowInc "30 minute".data q = false) (h1h : lowInc "1 hour".data q = false) :
    mockToolHandler t0 now1 q none = mockToolHandler t0 now2 q none := by
  have hq : mockQuery t0 now1 q = mockQuery t0 now2 q := by
    unfold mockQuery mockSelect
    simp [h30, h1h]
  unfold mockToolHandler
  rw [hq]

/-- Witness for the amended C9 at the query "error" and two distinct times. -/
theorem c9_witness :
    lowInc "30 minute".data "error".data = false ∧
    lowInc "1 hour".data "error".data = false ∧
    mockToolHandler 0 0 "error".data none = mockToolHandler 0 999999 "error".data none :=
  ⟨by decide, by decide,
    c9_amended_wallclock_dependence 0 "error".data 0 999999 (by decide) (by decide)⟩

/-- Claim C10 (confirmed): the append rule tests a bare case-insensitive
"limit" substring, so every query containing "limit" anywhere — even inside
another word such as "unlimited" — passes the append rule unchanged, with no
limiting clause appended. -/
theorem c10_bare_substring_no_append (q : List Char) (h : lowInc limitP q = true) :
    ensureLimit q = q := by
  unfold ensureLimit
  rw [if_pos h]

/-- Witness for C10 at the concrete query "SELECT * FROM unlimited". -/
theorem c10_witness :
    lowInc limitP "SELECT * FROM unlimited".data = true ∧
    ensureLimit "SELECT * FROM unlimited".data = "SELECT * FROM unlimited".data :=
  ⟨by decide, c10_bare_substring_no_append _ (by decide)⟩
